import Mathlib

/-!
Shallow embedding of the warehouse-web inventory backend
(`src/backend/backend/prisma/backend/src/index.js`, seed script in
`src/unnamed/part_000`).

Modelling conventions:
* Database rows are Lean structures.  The `warehouse` and `product` tables
  are looked up only through their unique `code` columns
  (`getWarehouseId`, `getProductByCode`), and the numeric ids they return
  are used solely as keys of the `inventory` and `inventoryTx` tables.
  Since codes and ids are in bijection (both are unique keys of the same
  rows), the embedding keys inventory rows directly by the pair of codes.
* JS numbers are embedded as `ℚ` (the routes perform exact arithmetic on
  them; floating-point representability is outside the scope of this
  development).
* The JS handlers mutate the store through `await` calls and can return
  early (`return res.status(400)...`) or throw (`getProductByCode`).
  There is no surrounding database transaction in the source, so any
  mutation performed before an early return or a throw persists.  Each
  route is therefore embedded as a function `... → State → State × Except
  Err α`: the returned state reflects exactly the `applyTx` calls executed
  before the exit point.
* `zod` request validation (`gallonSize ∈ {5,10,20}`, positive counts,
  non-empty item lists) happens before the handler body runs; theorems
  carry those facts as hypotheses, and the reachability relations include
  them as side conditions.
-/

namespace Wms

/-- A product row: `code` is the lookup key; `ptype` and `unit` are the
`type` and `unit` columns (`RAW`, `GALLON`, `PRODUCT_PACK`,
`PRODUCT_LIQUID`; `kg`, `count`, `liter`). -/
structure ProductRow where
  ptype : String
  unit : String
deriving DecidableEq, Repr

/-- A warehouse row: looked up by code; `name` is used by the alerts
projection. -/
structure WarehouseRow where
  name : String
deriving DecidableEq, Repr

/-- One `formulaPerLiter` row. -/
structure FormulaRow where
  productCode : String
  rawCode : String
  kgPerLiter : ℚ
deriving DecidableEq, Repr

/-- One `alertRule` row. -/
structure AlertRuleRow where
  warehouseCode : String
  productCode : String
  minQty : ℚ
deriving DecidableEq, Repr

/-- The immutable catalog tables: warehouses and products by code, the
formula table and the alert rules.  The routes under verification never
write to these tables. -/
structure Catalog where
  warehouses : String → Option WarehouseRow
  products : String → Option ProductRow
  formulas : List FormulaRow
  alertRules : List AlertRuleRow

/-- One `inventoryTx` row (ledger entry). -/
structure Entry where
  txType : String
  warehouse : String
  product : String
  qty : ℚ
  userId : Nat
deriving DecidableEq, Repr

/-- The mutable store: materialized balances (`inventory` table, a missing
row reads as quantity 0 via `getInv`) and the append-only `inventoryTx`
ledger. -/
@[ext]
structure State where
  inv : String → String → ℚ
  ledger : List Entry

/-- The typed failures of the routes: thrown catalog-resolution errors and
the `res.status(400)` rejections, with the quantities their `details`
objects carry. -/
inductive Err where
  | unknownWarehouse (code : String)
  | unknownProduct (code : String)
  | formulaNotDefined
  | insufficientRaw (rawCode : String) (needKg availKg : ℚ)
  | insufficientContainers (need available : ℚ)
  | insufficientPackaged (available need : ℚ)
  | insufficientLiquid (available need : ℚ)
  | disallowedPurchase (code : String)
deriving DecidableEq, Repr

/-- `getInv`: materialized balance, 0 when the row is absent. -/
def getInv (st : State) (warehouseCode productCode : String) : ℚ :=
  st.inv warehouseCode productCode

/-- `applyTx`: append one ledger entry, then upsert the balance row
(create at the delta when absent — equal to 0 + delta — or increment). -/
def applyTx (txType warehouseCode productCode : String) (qty : ℚ)
    (userId : Nat) (st : State) : State where
  inv := fun w p =>
    if w = warehouseCode ∧ p = productCode then st.inv w p + qty else st.inv w p
  ledger := st.ledger ++ [⟨txType, warehouseCode, productCode, qty, userId⟩]

/-- Template literal `GALLON_{gallonSize}`. -/
def gallonCode (gallonSize : Nat) : String :=
  "GALLON_" ++ toString gallonSize

/-- Template literal `{productCode}_PACK_{gallonSize}`. -/
def packCode (productCode : String) (gallonSize : Nat) : String :=
  productCode ++ "_PACK_" ++ toString gallonSize

/-- Template literal `{productCode}_LITERS`. -/
def litersCode (productCode : String) : String :=
  productCode ++ "_LITERS"

/-- One element of the `consumed` array echoed by `POST /production`. -/
structure Consumed where
  raw : String
  kg : ℚ
deriving DecidableEq, Repr

/-- The success payload of `POST /production`. -/
structure ProdResult where
  productCode : String
  gallonSize : Nat
  count : Nat
  liters : ℚ
  consumed : List Consumed
deriving DecidableEq, Repr

/-- The success payload of `POST /sales`. -/
structure SaleResult where
  productCode : String
  gallonSize : Nat
  count : Nat
  liters : ℚ
deriving DecidableEq, Repr

/-- The formula rows loaded for one production request:
`prisma.formulaPerLiter.findMany({ where: { productCode } })`. -/
def prodRows (cat : Catalog) (productCode : String) : List FormulaRow :=
  cat.formulas.filter (fun f => f.productCode == productCode)

/-- The raw-material availability loop of `POST /production`: for each
formula row, resolve the raw product, compute `needKg`, and reject with
the shortfall details on the first insufficient row.  Pure reads only. -/
def checkRaws (cat : Catalog) (st : State) (rows : List FormulaRow)
    (liters : ℚ) : Except Err Unit :=
  match rows with
  | [] => .ok ()
  | f :: rest =>
    match cat.products f.rawCode with
    | none => .error (.unknownProduct f.rawCode)
    | some _ =>
      let needKg := f.kgPerLiter * liters
      let avail := getInv st "RAW_WH" f.rawCode
      if avail < needKg then
        .error (.insufficientRaw f.rawCode needKg avail)
      else
        checkRaws cat st rest liters

/-- The raw-material consumption loop of `POST /production`: re-resolve
each raw product (a throw here surfaces after earlier iterations already
committed), apply the negative entry, and accumulate the `consumed`
echo. -/
def commitRaws (cat : Catalog) (rows : List FormulaRow) (liters : ℚ)
    (userId : Nat) (st : State) : State × Except Err (List Consumed) :=
  match rows with
  | [] => (st, .ok [])
  | f :: rest =>
    match cat.products f.rawCode with
    | none => (st, .error (.unknownProduct f.rawCode))
    | some _ =>
      let needKg := f.kgPerLiter * liters
      let st1 := applyTx "PRODUCTION" "RAW_WH" f.rawCode (-needKg) userId st
      match commitRaws cat rest liters userId st1 with
      | (st2, .ok cs) => (st2, .ok (⟨f.rawCode, needKg⟩ :: cs))
      | (st2, .error e) => (st2, .error e)

/-- `POST /production`, after zod validation: resolve the three fixed
warehouses, load the formula rows, check raw and container availability,
then commit raw consumption, container consumption, and the packaged and
liquid outputs, echoing the success payload.  The packaged and liquid
product codes are resolved only in the commit phase, after the raw and
container entries are already applied. -/
def production (cat : Catalog) (productCode : String) (gallonSize : Nat)
    (count : Nat) (userId : Nat) (st : State) :
    State × Except Err ProdResult :=
  let liters : ℚ := (count : ℚ) * (gallonSize : ℚ)
  match cat.warehouses "RAW_WH" with
  | none => (st, .error (.unknownWarehouse "RAW_WH"))
  | some _ =>
  match cat.warehouses "GAL_WH" with
  | none => (st, .error (.unknownWarehouse "GAL_WH"))
  | some _ =>
  match cat.warehouses "FG_WH" with
  | none => (st, .error (.unknownWarehouse "FG_WH"))
  | some _ =>
  let formula := prodRows cat productCode
  if formula.isEmpty then (st, .error .formulaNotDefined)
  else
    match checkRaws cat st formula liters with
    | .error e => (st, .error e)
    | .ok _ =>
      match cat.products (gallonCode gallonSize) with
      | none => (st, .error (.unknownProduct (gallonCode gallonSize)))
      | some _ =>
        let availG := getInv st "GAL_WH" (gallonCode gallonSize)
        if availG < (count : ℚ) then
          (st, .error (.insufficientContainers (count : ℚ) availG))
        else
          match commitRaws cat formula liters userId st with
          | (st1, .error e) => (st1, .error e)
          | (st1, .ok consumed) =>
            let st2 := applyTx "PRODUCTION" "GAL_WH" (gallonCode gallonSize)
              (-(count : ℚ)) userId st1
            match cat.products (packCode productCode gallonSize) with
            | none => (st2, .error (.unknownProduct (packCode productCode gallonSize)))
            | some _ =>
            match cat.products (litersCode productCode) with
            | none => (st2, .error (.unknownProduct (litersCode productCode)))
            | some _ =>
              let st3 := applyTx "PRODUCTION" "FG_WH"
                (packCode productCode gallonSize) (count : ℚ) userId st2
              let st4 := applyTx "PRODUCTION" "FG_WH" (litersCode productCode)
                liters userId st3
              (st4, .ok ⟨productCode, gallonSize, count, liters, consumed⟩)

/-- One item of a `POST /purchases` request. -/
structure PurchaseItem where
  code : String
  qty : ℚ
deriving DecidableEq, Repr

/-- The item loop of `POST /purchases`: resolve each product, route it to
the raw or container warehouse by its type, reject anything else, and
apply one positive entry per item.  A rejection or throw at item `i`
leaves the entries of items `0..i-1` committed. -/
def purchaseLoop (cat : Catalog) (userId : Nat) (items : List PurchaseItem)
    (st : State) : State × Except Err Unit :=
  match items with
  | [] => (st, .ok ())
  | it :: rest =>
    match cat.products it.code with
    | none => (st, .error (.unknownProduct it.code))
    | some p =>
      let whId : Option String :=
        if p.ptype == "RAW" then some "RAW_WH"
        else if p.ptype == "GALLON" then some "GAL_WH"
        else none
      match whId with
      | none => (st, .error (.disallowedPurchase it.code))
      | some wh =>
        purchaseLoop cat userId rest (applyTx "PURCHASE" wh it.code it.qty userId st)

/-- `POST /purchases`, after zod validation: resolve the two destination
warehouses, then run the item loop. -/
def purchase (cat : Catalog) (items : List PurchaseItem) (userId : Nat)
    (st : State) : State × Except Err Unit :=
  match cat.warehouses "RAW_WH" with
  | none => (st, .error (.unknownWarehouse "RAW_WH"))
  | some _ =>
  match cat.warehouses "GAL_WH" with
  | none => (st, .error (.unknownWarehouse "GAL_WH"))
  | some _ =>
    purchaseLoop cat userId items st

/-- `POST /sales`, after zod validation: resolve the finished-goods
warehouse and both product codes, read both balances, reject on packaged
then liquid shortfall, and otherwise commit the two negative entries. -/
def sale (cat : Catalog) (productCode : String) (gallonSize : Nat)
    (count : Nat) (userId : Nat) (st : State) :
    State × Except Err SaleResult :=
  let liters : ℚ := (count : ℚ) * (gallonSize : ℚ)
  match cat.warehouses "FG_WH" with
  | none => (st, .error (.unknownWarehouse "FG_WH"))
  | some _ =>
  match cat.products (packCode productCode gallonSize) with
  | none => (st, .error (.unknownProduct (packCode productCode gallonSize)))
  | some _ =>
  match cat.products (litersCode productCode) with
  | none => (st, .error (.unknownProduct (litersCode productCode)))
  | some _ =>
    let availPack := getInv st "FG_WH" (packCode productCode gallonSize)
    let availLit := getInv st "FG_WH" (litersCode productCode)
    if availPack < (count : ℚ) then
      (st, .error (.insufficientPackaged availPack (count : ℚ)))
    else if availLit < liters then
      (st, .error (.insufficientLiquid availLit liters))
    else
      let st1 := applyTx "SALE" "FG_WH" (packCode productCode gallonSize)
        (-(count : ℚ)) userId st
      let st2 := applyTx "SALE" "FG_WH" (litersCode productCode)
        (-liters) userId st1
      (st2, .ok ⟨productCode, gallonSize, count, liters⟩)

/-- One element of the `GET /alerts/active` response. -/
structure Breach where
  warehouse : String
  product : String
  current : ℚ
  min : ℚ
  unit : String
deriving DecidableEq, Repr

/-- The rule loop of `GET /alerts/active`: silently skip rules whose
warehouse or product code does not resolve; otherwise read the balance
(0 when absent) and push a breach record when it is strictly below the
threshold. -/
def alertsGo (cat : Catalog) (st : State) :
    List AlertRuleRow → List Breach
  | [] => []
  | r :: rest =>
    match cat.warehouses r.warehouseCode, cat.products r.productCode with
    | some wh, some pr =>
      let qty := getInv st r.warehouseCode r.productCode
      if qty < r.minQty then
        ⟨wh.name, r.productCode, qty, r.minQty, pr.unit⟩ :: alertsGo cat st rest
      else
        alertsGo cat st rest
    | some _, none => alertsGo cat st rest
    | none, _ => alertsGo cat st rest

/-- `GET /alerts/active` over the configured rule table. -/
def alertsActive (cat : Catalog) (st : State) : List Breach :=
  alertsGo cat st cat.alertRules

/-! ### Product-code disjointness

The engine identifies the packaged and liquid products of a family by the
string templates above.  These lemmas show the templates are injective and
pairwise disjoint for the container sizes admitted by the zod schema. -/

theorem str_eq_of_data {a b : String} (h : a.data = b.data) : a = b := by
  cases a; cases b; exact congrArg String.mk h

theorem append_last2_ne {x y u v : List Char} {c1 c2 d1 d2 : Char} (h : c1 ≠ d1)
    (hEq : x ++ (u ++ [c1, c2]) = y ++ (v ++ [d1, d2])) : False := by
  have h2 := congrArg List.reverse hEq
  simp [List.reverse_append] at h2
  exact h h2.2.1

theorem packCode_data (pc : String) (s : Nat) :
    (packCode pc s).data = pc.data ++ ("_PACK_".data ++ (toString s).data) := by
  simp [packCode, String.data_append]

theorem litersCode_data (pc : String) :
    (litersCode pc).data = pc.data ++ ("_LITERS" : String).data := by
  simp [litersCode, String.data_append]

theorem pack_suffix_5 :
    (("_PACK_" : String).data ++ (toString (5 : Nat)).data) =
      ("_PACK" : String).data ++ ['_', '5'] := by decide

theorem pack_suffix_10 :
    (("_PACK_" : String).data ++ (toString (10 : Nat)).data) =
      ("_PACK_" : String).data ++ ['1', '0'] := by decide

theorem pack_suffix_20 :
    (("_PACK_" : String).data ++ (toString (20 : Nat)).data) =
      ("_PACK_" : String).data ++ ['2', '0'] := by decide

theorem liters_suffix :
    ("_LITERS" : String).data = ("_LITE" : String).data ++ ['R', 'S'] := by decide

theorem packCode_ne_litersCode {pc1 pc2 : String} {s : Nat}
    (hs : s = 5 ∨ s = 10 ∨ s = 20) : packCode pc1 s ≠ litersCode pc2 := by
  intro h
  have hd := congrArg String.data h
  rw [packCode_data, litersCode_data, liters_suffix] at hd
  rcases hs with rfl | rfl | rfl
  · rw [pack_suffix_5] at hd; exact append_last2_ne (by decide) hd
  · rw [pack_suffix_10] at hd; exact append_last2_ne (by decide) hd
  · rw [pack_suffix_20] at hd; exact append_last2_ne (by decide) hd

theorem litersCode_inj {pc1 pc2 : String} (h : litersCode pc1 = litersCode pc2) :
    pc1 = pc2 := by
  have hd := congrArg String.data h
  rw [litersCode_data, litersCode_data] at hd
  exact str_eq_of_data (List.append_cancel_right hd)

theorem packCode_inj {pc1 pc2 : String} {s1 s2 : Nat}
    (h1 : s1 = 5 ∨ s1 = 10 ∨ s1 = 20) (h2 : s2 = 5 ∨ s2 = 10 ∨ s2 = 20)
    (h : packCode pc1 s1 = packCode pc2 s2) : pc1 = pc2 ∧ s1 = s2 := by
  have hd := congrArg String.data h
  rw [packCode_data, packCode_data] at hd
  rcases h1 with rfl | rfl | rfl <;> rcases h2 with rfl | rfl | rfl
  · exact ⟨str_eq_of_data (List.append_cancel_right hd), rfl⟩
  · rw [pack_suffix_5, pack_suffix_10] at hd
    exact absurd hd fun hh => append_last2_ne (by decide) hh
  · rw [pack_suffix_5, pack_suffix_20] at hd
    exact absurd hd fun hh => append_last2_ne (by decide) hh
  · rw [pack_suffix_10, pack_suffix_5] at hd
    exact absurd hd fun hh => append_last2_ne (by decide) hh
  · exact ⟨str_eq_of_data (List.append_cancel_right hd), rfl⟩
  · rw [pack_suffix_10, pack_suffix_20] at hd
    exact absurd hd fun hh => append_last2_ne (by decide) hh
  · rw [pack_suffix_20, pack_suffix_5] at hd
    exact absurd hd fun hh => append_last2_ne (by decide) hh
  · rw [pack_suffix_20, pack_suffix_10] at hd
    exact absurd hd fun hh => append_last2_ne (by decide) hh
  · exact ⟨str_eq_of_data (List.append_cancel_right hd), rfl⟩

/-! ### Basic lemmas about `applyTx` -/

theorem applyTx_inv_self (t wh p : String) (q : ℚ) (u : Nat) (st : State) :
    (applyTx t wh p q u st).inv wh p = st.inv wh p + q := by
  simp [applyTx]

theorem applyTx_inv_ne {w r wh p : String} (t : String) (q : ℚ) (u : Nat)
    (st : State) (h : ¬(w = wh ∧ r = p)) :
    (applyTx t wh p q u st).inv w r = st.inv w r := by
  simp only [applyTx, if_neg h]

theorem applyTx_ledger (t wh p : String) (q : ℚ) (u : Nat) (st : State) :
    (applyTx t wh p q u st).ledger = st.ledger ++ [⟨t, wh, p, q, u⟩] := rfl

/-! ### Characterizing the production check and commit loops -/

/-- Total raw-material consumption a commit of `rows` applies to the
balance of raw product `p`. -/
def rawNeed (rows : List FormulaRow) (liters : ℚ) (p : String) : ℚ :=
  match rows with
  | [] => 0
  | f :: rest =>
    (if f.rawCode = p then f.kgPerLiter * liters else 0) + rawNeed rest liters p

/-- The ledger entry the commit loop writes for one formula row. -/
def rawEntry (liters : ℚ) (u : Nat) (f : FormulaRow) : Entry :=
  ⟨"PRODUCTION", "RAW_WH", f.rawCode, -(f.kgPerLiter * liters), u⟩

theorem checkRaws_ok_iff (cat : Catalog) (st : State) (rows : List FormulaRow)
    (liters : ℚ) :
    checkRaws cat st rows liters = .ok () ↔
      ∀ f ∈ rows, (cat.products f.rawCode).isSome = true ∧
        f.kgPerLiter * liters ≤ st.inv "RAW_WH" f.rawCode := by
  induction rows with
  | nil => simp [checkRaws]
  | cons f rest ih =>
    cases hp : cat.products f.rawCode with
    | none => simp [checkRaws, hp]
    | some pr =>
      by_cases hlt : st.inv "RAW_WH" f.rawCode < f.kgPerLiter * liters
      · simp [checkRaws, hp, getInv, hlt, not_le.mpr hlt]
      · simp [checkRaws, hp, getInv, hlt, ih, not_lt.mp hlt]

theorem rawNeed_of_not_mem {rows : List FormulaRow} {p : String}
    (h : ∀ f ∈ rows, f.rawCode ≠ p) (liters : ℚ) : rawNeed rows liters p = 0 := by
  induction rows with
  | nil => rfl
  | cons f rest ih =>
    have hf : f.rawCode ≠ p := h f (by simp)
    simp [rawNeed, hf, ih fun g hg => h g (by simp [hg])]

theorem rawNeed_of_mem {rows : List FormulaRow} {f : FormulaRow}
    (hnd : rows.Pairwise (fun a b => a.rawCode ≠ b.rawCode)) (hf : f ∈ rows)
    (liters : ℚ) : rawNeed rows liters f.rawCode = f.kgPerLiter * liters := by
  induction rows with
  | nil => cases hf
  | cons g rest ih =>
    rcases List.mem_cons.mp hf with rfl | hmem
    · have hrest : ∀ h ∈ rest, h.rawCode ≠ f.rawCode := by
        intro h hh
        exact fun he => (List.pairwise_cons.mp hnd).1 h hh he.symm
      simp [rawNeed, rawNeed_of_not_mem hrest]
    · have hg : g.rawCode ≠ f.rawCode := (List.pairwise_cons.mp hnd).1 f hmem
      simp [rawNeed, hg, ih (List.pairwise_cons.mp hnd).2 hmem]

theorem commitRaws_spec (cat : Catalog) (rows : List FormulaRow) (liters : ℚ)
    (u : Nat) (st : State)
    (h : ∀ f ∈ rows, (cat.products f.rawCode).isSome = true) :
    commitRaws cat rows liters u st =
      ({ inv := fun w p =>
           if w = "RAW_WH" then st.inv w p - rawNeed rows liters p else st.inv w p,
         ledger := st.ledger ++ rows.map (rawEntry liters u) },
       .ok (rows.map fun f => ⟨f.rawCode, f.kgPerLiter * liters⟩)) := by
  induction rows generalizing st with
  | nil =>
    simp only [commitRaws, List.map_nil, List.append_nil, Prod.mk.injEq]
    refine ⟨State.ext ?_ rfl, trivial⟩
    funext w p
    by_cases hw : w = "RAW_WH" <;> simp [hw, rawNeed]
  | cons f rest ih =>
    obtain ⟨pr, hp⟩ := Option.isSome_iff_exists.mp (h f (by simp))
    simp only [commitRaws, hp]
    rw [ih _ fun g hg => h g (by simp [hg])]
    simp only [Prod.mk.injEq, List.map_cons]
    refine ⟨State.ext ?_ ?_, trivial⟩
    · funext w p
      by_cases hw : w = "RAW_WH" <;> by_cases hpc : p = f.rawCode
      · simp only [applyTx, rawNeed, hw, hpc, and_self, if_true, if_pos rfl]
        ring
      · simp [applyTx, rawNeed, hw, hpc, Ne.symm hpc]
      · simp [applyTx, rawNeed, hw, hpc]
      · simp [applyTx, rawNeed, hw, hpc]
    · simp [applyTx, rawEntry]

theorem commitRaws_inv_frame (cat : Catalog) (rows : List FormulaRow)
    (liters : ℚ) (u : Nat) (st : State) {w p : String}
    (h : w ≠ "RAW_WH" ∨ p ∉ rows.map (·.rawCode)) :
    (commitRaws cat rows liters u st).1.inv w p = st.inv w p := by
  induction rows generalizing st with
  | nil => rfl
  | cons f rest ih =>
    have hfr : ¬(w = "RAW_WH" ∧ p = f.rawCode) := by
      rcases h with h | h
      · exact fun hc => h hc.1
      · exact fun hc => h (by simp [← hc.2])
    have hrest : w ≠ "RAW_WH" ∨ p ∉ rest.map (·.rawCode) := by
      rcases h with h | h
      · exact Or.inl h
      · exact Or.inr fun hc => h (by simp at hc ⊢; exact Or.inr hc)
    cases hp : cat.products f.rawCode with
    | none => simp [commitRaws, hp]
    | some pr =>
      have key := ih
        (applyTx "PRODUCTION" "RAW_WH" f.rawCode (-(f.kgPerLiter * liters)) u st)
        hrest
      have haxe : (applyTx "PRODUCTION" "RAW_WH" f.rawCode
          (-(f.kgPerLiter * liters)) u st).inv w p = st.inv w p :=
        applyTx_inv_ne _ _ _ _ hfr
      cases hrec : commitRaws cat rest liters u
          (applyTx "PRODUCTION" "RAW_WH" f.rawCode (-(f.kgPerLiter * liters)) u st) with
      | mk s2 r2 =>
        rw [hrec] at key
        cases r2 <;> simp only [commitRaws, hp, hrec] <;> exact key.trans haxe

/-! ### Branch enumeration for the production route

Every run of `POST /production` ends in one of three ways: a rejection
decided before any mutation, a throw while resolving the packaged or
liquid product code after the raw-material and container entries are
already committed, or full success. -/

theorem production_enum (cat : Catalog) (pc : String) (gs n uid : Nat)
    (st : State) :
    (∃ e, production cat pc gs n uid st = (st, .error e)) ∨
    (checkRaws cat st (prodRows cat pc) ((n : ℚ) * (gs : ℚ)) = .ok () ∧
     (n : ℚ) ≤ st.inv "GAL_WH" (gallonCode gs) ∧
     (production cat pc gs n uid st =
        (applyTx "PRODUCTION" "GAL_WH" (gallonCode gs) (-(n : ℚ)) uid
          (commitRaws cat (prodRows cat pc) ((n : ℚ) * (gs : ℚ)) uid st).1,
         .error (.unknownProduct (packCode pc gs))) ∨
      production cat pc gs n uid st =
        (applyTx "PRODUCTION" "GAL_WH" (gallonCode gs) (-(n : ℚ)) uid
          (commitRaws cat (prodRows cat pc) ((n : ℚ) * (gs : ℚ)) uid st).1,
         .error (.unknownProduct (litersCode pc))))) ∨
    (checkRaws cat st (prodRows cat pc) ((n : ℚ) * (gs : ℚ)) = .ok () ∧
     (n : ℚ) ≤ st.inv "GAL_WH" (gallonCode gs) ∧
     production cat pc gs n uid st =
       (applyTx "PRODUCTION" "FG_WH" (litersCode pc) ((n : ℚ) * (gs : ℚ)) uid
         (applyTx "PRODUCTION" "FG_WH" (packCode pc gs) ((n : ℚ)) uid
           (applyTx "PRODUCTION" "GAL_WH" (gallonCode gs) (-(n : ℚ)) uid
             (commitRaws cat (prodRows cat pc) ((n : ℚ) * (gs : ℚ)) uid st).1)),
        .ok ⟨pc, gs, n, (n : ℚ) * (gs : ℚ),
          (prodRows cat pc).map fun f =>
            ⟨f.rawCode, f.kgPerLiter * ((n : ℚ) * (gs : ℚ))⟩⟩)) := by
  cases hR : cat.warehouses "RAW_WH" with
  | none =>
    exact Or.inl ⟨.unknownWarehouse "RAW_WH", by simp [production, hR]⟩
  | some wR =>
  cases hG : cat.warehouses "GAL_WH" with
  | none =>
    exact Or.inl ⟨.unknownWarehouse "GAL_WH", by simp [production, hR, hG]⟩
  | some wG =>
  cases hF : cat.warehouses "FG_WH" with
  | none =>
    exact Or.inl ⟨.unknownWarehouse "FG_WH", by simp [production, hR, hG, hF]⟩
  | some wF =>
  by_cases hemp : (prodRows cat pc).isEmpty = true
  · exact Or.inl ⟨.formulaNotDefined, by simp [production, hR, hG, hF, hemp]⟩
  · cases hck : checkRaws cat st (prodRows cat pc) ((n : ℚ) * (gs : ℚ)) with
    | error e =>
      exact Or.inl ⟨e, by simp [production, hR, hG, hF, hemp, hck]⟩
    | ok u0 =>
      cases u0
      cases hgp : cat.products (gallonCode gs) with
      | none =>
        exact Or.inl ⟨.unknownProduct (gallonCode gs),
          by simp [production, hR, hG, hF, hemp, hck, hgp]⟩
      | some pg =>
        by_cases hq : getInv st "GAL_WH" (gallonCode gs) < (n : ℚ)
        · exact Or.inl ⟨.insufficientContainers (n : ℚ)
              (getInv st "GAL_WH" (gallonCode gs)),
            by simp [production, hR, hG, hF, hemp, hck, hgp, hq]⟩
        · have hres : ∀ f ∈ prodRows cat pc,
              (cat.products f.rawCode).isSome = true :=
            fun f hf => ((checkRaws_ok_iff cat st _ _).mp hck f hf).1
          have hcr := commitRaws_spec cat (prodRows cat pc)
            ((n : ℚ) * (gs : ℚ)) uid st hres
          cases hpp : cat.products (packCode pc gs) with
          | none =>
            refine Or.inr (Or.inl ⟨rfl, not_lt.mp hq, Or.inl ?_⟩)
            simp [production, hR, hG, hF, hemp, hck, hgp, hq, hcr, hpp]
          | some ppk =>
            cases hlp : cat.products (litersCode pc) with
            | none =>
              refine Or.inr (Or.inl ⟨rfl, not_lt.mp hq, Or.inr ?_⟩)
              simp [production, hR, hG, hF, hemp, hck, hgp, hq, hcr, hpp, hlp]
            | some plt =>
              refine Or.inr (Or.inr ⟨rfl, not_lt.mp hq, ?_⟩)
              simp [production, hR, hG, hF, hemp, hck, hgp, hq, hcr, hpp, hlp]

/-! ### Branch enumeration for the sales route -/

theorem sale_enum (cat : Catalog) (pc : String) (gs n uid : Nat) (st : State) :
    (∃ e, sale cat pc gs n uid st = (st, .error e)) ∨
    ((n : ℚ) ≤ st.inv "FG_WH" (packCode pc gs) ∧
     (n : ℚ) * (gs : ℚ) ≤ st.inv "FG_WH" (litersCode pc) ∧
     sale cat pc gs n uid st =
       (applyTx "SALE" "FG_WH" (litersCode pc) (-((n : ℚ) * (gs : ℚ))) uid
         (applyTx "SALE" "FG_WH" (packCode pc gs) (-(n : ℚ)) uid st),
        .ok ⟨pc, gs, n, (n : ℚ) * (gs : ℚ)⟩)) := by
  cases hF : cat.warehouses "FG_WH" with
  | none => exact Or.inl ⟨.unknownWarehouse "FG_WH", by simp [sale, hF]⟩
  | some wF =>
  cases hpp : cat.products (packCode pc gs) with
  | none =>
    exact Or.inl ⟨.unknownProduct (packCode pc gs), by simp [sale, hF, hpp]⟩
  | some ppk =>
  cases hlp : cat.products (litersCode pc) with
  | none =>
    exact Or.inl ⟨.unknownProduct (litersCode pc), by simp [sale, hF, hpp, hlp]⟩
  | some plt =>
  by_cases h1 : getInv st "FG_WH" (packCode pc gs) < (n : ℚ)
  · exact Or.inl ⟨.insufficientPackaged (getInv st "FG_WH" (packCode pc gs)) (n : ℚ),
      by simp [sale, hF, hpp, hlp, h1]⟩
  · by_cases h2 : getInv st "FG_WH" (litersCode pc) < (n : ℚ) * (gs : ℚ)
    · exact Or.inl ⟨.insufficientLiquid (getInv st "FG_WH" (litersCode pc))
          ((n : ℚ) * (gs : ℚ)),
        by simp [sale, hF, hpp, hlp, h1, h2]⟩
    · refine Or.inr ⟨not_lt.mp h1, not_lt.mp h2, ?_⟩
      simp [sale, hF, hpp, hlp, h1, h2]

/-! ### Lemmas about the purchase item loop -/

/-- An item the purchase loop accepts: its code resolves and the product
kind routes to the raw or container warehouse. -/
def goodItem (cat : Catalog) (it : PurchaseItem) : Prop :=
  ∃ p, cat.products it.code = some p ∧ (p.ptype = "RAW" ∨ p.ptype = "GALLON")

/-- An item the purchase loop rejects: unresolvable, or a kind the route
refuses. -/
def badItem (cat : Catalog) (it : PurchaseItem) : Prop :=
  ∀ p, cat.products it.code = some p → p.ptype ≠ "RAW" ∧ p.ptype ≠ "GALLON"

theorem purchaseLoop_cons_good {cat : Catalog} {it : PurchaseItem}
    {p : ProductRow} (u : Nat) (rest : List PurchaseItem) (st : State)
    (hp : cat.products it.code = some p)
    (hr : p.ptype = "RAW" ∨ p.ptype = "GALLON") :
    purchaseLoop cat u (it :: rest) st =
      purchaseLoop cat u rest
        (applyTx "PURCHASE" (if p.ptype = "RAW" then "RAW_WH" else "GAL_WH")
          it.code it.qty u st) := by
  rcases hr with h | h <;> simp [purchaseLoop, hp, h]

theorem purchaseLoop_bad_head {cat : Catalog} {it : PurchaseItem} (u : Nat)
    (rest : List PurchaseItem) (st : State) (hbad : badItem cat it) :
    ∃ e, purchaseLoop cat u (it :: rest) st = (st, .error e) := by
  cases hp : cat.products it.code with
  | none => exact ⟨.unknownProduct it.code, by simp [purchaseLoop, hp]⟩
  | some p =>
    obtain ⟨h1, h2⟩ := hbad p hp
    have b1 : (p.ptype == "RAW") = false := beq_eq_false_iff_ne.mpr h1
    have b2 : (p.ptype == "GALLON") = false := beq_eq_false_iff_ne.mpr h2
    exact ⟨.disallowedPurchase it.code, by simp [purchaseLoop, hp, b1, b2]⟩

theorem purchaseLoop_append_good {cat : Catalog} {pre : List PurchaseItem}
    (u : Nat) (rest : List PurchaseItem) (st : State)
    (hpre : ∀ it ∈ pre, goodItem cat it) :
    purchaseLoop cat u (pre ++ rest) st =
      purchaseLoop cat u rest (purchaseLoop cat u pre st).1 := by
  induction pre generalizing st with
  | nil => rfl
  | cons it pre' ih =>
    obtain ⟨p, hp, hr⟩ := hpre it (by simp)
    rw [List.cons_append, purchaseLoop_cons_good u (pre' ++ rest) st hp hr,
      purchaseLoop_cons_good u pre' st hp hr,
      ih _ fun g hg => hpre g (by simp [hg])]

theorem purchaseLoop_good_spec {cat : Catalog} {pre : List PurchaseItem}
    (u : Nat) (st : State) (hpre : ∀ it ∈ pre, goodItem cat it) :
    (purchaseLoop cat u pre st).2 = .ok () ∧
      (purchaseLoop cat u pre st).1.ledger.length =
        st.ledger.length + pre.length := by
  induction pre generalizing st with
  | nil => exact ⟨rfl, rfl⟩
  | cons it pre' ih =>
    obtain ⟨p, hp, hr⟩ := hpre it (by simp)
    rw [purchaseLoop_cons_good u pre' st hp hr]
    obtain ⟨ha, hb⟩ := ih (applyTx "PURCHASE"
      (if p.ptype = "RAW" then "RAW_WH" else "GAL_WH") it.code it.qty u st)
      fun g hg => hpre g (by simp [hg])
    refine ⟨ha, ?_⟩
    rw [hb]
    simp [applyTx]
    omega

theorem purchaseLoop_inv_frame {cat : Catalog} {items : List PurchaseItem}
    {w p : String} (u : Nat) (st : State)
    (h : (w ≠ "RAW_WH" ∧ w ≠ "GAL_WH") ∨ p ∉ items.map (·.code)) :
    (purchaseLoop cat u items st).1.inv w p = st.inv w p := by
  induction items generalizing st with
  | nil => rfl
  | cons it rest ih =>
    have hrest : (w ≠ "RAW_WH" ∧ w ≠ "GAL_WH") ∨ p ∉ rest.map (·.code) := by
      rcases h with h | h
      · exact Or.inl h
      · exact Or.inr fun hc => h (by simp at hc ⊢; exact Or.inr hc)
    have hkey : ∀ wh : String, wh = "RAW_WH" ∨ wh = "GAL_WH" →
        ¬(w = wh ∧ p = it.code) := by
      rintro wh hwh ⟨rfl, rfl⟩
      rcases h with ⟨hA, hB⟩ | h
      · rcases hwh with rfl | rfl
        · exact hA rfl
        · exact hB rfl
      · exact h (by simp)
    cases hp : cat.products it.code with
    | none => simp [purchaseLoop, hp]
    | some pr =>
      by_cases h1 : pr.ptype = "RAW"
      · rw [purchaseLoop_cons_good u rest st hp (Or.inl h1), if_pos h1,
          ih _ hrest]
        exact applyTx_inv_ne _ _ _ _ (hkey _ (Or.inl rfl))
      · by_cases h2 : pr.ptype = "GALLON"
        · rw [purchaseLoop_cons_good u rest st hp (Or.inr h2), if_neg h1,
            ih _ hrest]
          exact applyTx_inv_ne _ _ _ _ (hkey _ (Or.inr rfl))
        · have b1 : (pr.ptype == "RAW") = false := beq_eq_false_iff_ne.mpr h1
          have b2 : (pr.ptype == "GALLON") = false := beq_eq_false_iff_ne.mpr h2
          simp [purchaseLoop, hp, b1, b2]

theorem purchase_enum (cat : Catalog) (items : List PurchaseItem) (u : Nat)
    (st : State) :
    (∃ e, purchase cat items u st = (st, .error e)) ∨
      purchase cat items u st = purchaseLoop cat u items st := by
  cases hR : cat.warehouses "RAW_WH" with
  | none => exact Or.inl ⟨.unknownWarehouse "RAW_WH", by simp [purchase, hR]⟩
  | some wR =>
  cases hG : cat.warehouses "GAL_WH" with
  | none => exact Or.inl ⟨.unknownWarehouse "GAL_WH", by simp [purchase, hR, hG]⟩
  | some wG => exact Or.inr (by simp [purchase, hR, hG])

/-! ### The ledger/balance coherence invariant -/

/-- Sum of the signed deltas of all ledger entries for one
(warehouse, product) pair. -/
def ledgerSum (w p : String) : List Entry → ℚ
  | [] => 0
  | e :: rest => (if e.warehouse = w ∧ e.product = p then e.qty else 0) +
      ledgerSum w p rest

/-- Every materialized balance equals the sum of its ledger deltas. -/
def Balanced (st : State) : Prop :=
  ∀ w p, st.inv w p = ledgerSum w p st.ledger

theorem ledgerSum_append (w p : String) (l1 l2 : List Entry) :
    ledgerSum w p (l1 ++ l2) = ledgerSum w p l1 + ledgerSum w p l2 := by
  induction l1 with
  | nil => simp [ledgerSum]
  | cons e rest ih => simp [ledgerSum, ih]; ring

theorem balanced_applyTx (t wh pr : String) (q : ℚ) (u : Nat) {st : State}
    (h : Balanced st) : Balanced (applyTx t wh pr q u st) := by
  intro w p
  rw [applyTx_ledger, ledgerSum_append]
  by_cases hc : w = wh ∧ p = pr
  · obtain ⟨rfl, rfl⟩ := hc
    simp [applyTx, ledgerSum, h w p]
  · have hc' : ¬(wh = w ∧ pr = p) := fun hh => hc ⟨hh.1.symm, hh.2.symm⟩
    simp [applyTx, hc, ledgerSum, hc', h w p]

theorem balanced_commitRaws (cat : Catalog) (rows : List FormulaRow)
    (liters : ℚ) (u : Nat) {st : State} (h : Balanced st) :
    Balanced (commitRaws cat rows liters u st).1 := by
  induction rows generalizing st with
  | nil => exact h
  | cons f rest ih =>
    cases hp : cat.products f.rawCode with
    | none => simpa [commitRaws, hp] using h
    | some pr =>
      have key := ih (balanced_applyTx "PRODUCTION" "RAW_WH" f.rawCode
        (-(f.kgPerLiter * liters)) u h)
      cases hrec : commitRaws cat rest liters u
          (applyTx "PRODUCTION" "RAW_WH" f.rawCode (-(f.kgPerLiter * liters)) u st) with
      | mk s2 r2 =>
        rw [hrec] at key
        cases r2 <;> simp only [commitRaws, hp, hrec] <;> exact key

theorem balanced_purchaseLoop (cat : Catalog) (items : List PurchaseItem)
    (u : Nat) {st : State} (h : Balanced st) :
    Balanced (purchaseLoop cat u items st).1 := by
  induction items generalizing st with
  | nil => exact h
  | cons it rest ih =>
    cases hp : cat.products it.code with
    | none => simpa [purchaseLoop, hp] using h
    | some pr =>
      by_cases h1 : pr.ptype = "RAW"
      · rw [purchaseLoop_cons_good u rest st hp (Or.inl h1)]
        exact ih (balanced_applyTx _ _ _ _ _ h)
      · by_cases h2 : pr.ptype = "GALLON"
        · rw [purchaseLoop_cons_good u rest st hp (Or.inr h2)]
          exact ih (balanced_applyTx _ _ _ _ _ h)
        · have b1 : (pr.ptype == "RAW") = false := beq_eq_false_iff_ne.mpr h1
          have b2 : (pr.ptype == "GALLON") = false := beq_eq_false_iff_ne.mpr h2
          simpa [purchaseLoop, hp, b1, b2] using h

theorem balanced_production (cat : Catalog) (pc : String) (gs n uid : Nat)
    {st : State} (h : Balanced st) :
    Balanced (production cat pc gs n uid st).1 := by
  rcases production_enum cat pc gs n uid st with
    ⟨e, heq⟩ | ⟨hck, hg, heq | heq⟩ | ⟨hck, hg, heq⟩ <;> rw [heq]
  · exact h
  · exact balanced_applyTx _ _ _ _ _ (balanced_commitRaws cat _ _ uid h)
  · exact balanced_applyTx _ _ _ _ _ (balanced_commitRaws cat _ _ uid h)
  · exact balanced_applyTx _ _ _ _ _ (balanced_applyTx _ _ _ _ _
      (balanced_applyTx _ _ _ _ _ (balanced_commitRaws cat _ _ uid h)))

theorem balanced_sale (cat : Catalog) (pc : String) (gs n uid : Nat)
    {st : State} (h : Balanced st) : Balanced (sale cat pc gs n uid st).1 := by
  rcases sale_enum cat pc gs n uid st with ⟨e, heq⟩ | ⟨h1, h2, heq⟩ <;> rw [heq]
  · exact h
  · exact balanced_applyTx _ _ _ _ _ (balanced_applyTx _ _ _ _ _ h)

theorem balanced_purchase (cat : Catalog) (items : List PurchaseItem)
    (uid : Nat) {st : State} (h : Balanced st) :
    Balanced (purchase cat items uid st).1 := by
  rcases purchase_enum cat items uid st with ⟨e, heq⟩ | heq <;> rw [heq]
  · exact h
  · exact balanced_purchaseLoop cat items uid h

/-! ### The finished-goods lockstep invariant -/

/-- For every family, the liquid balance equals the size-weighted sum of
the packaged balances, and every finished-goods balance is nonnegative. -/
def FGInv (st : State) : Prop :=
  (∀ F : String, st.inv "FG_WH" (litersCode F) =
      5 * st.inv "FG_WH" (packCode F 5) + 10 * st.inv "FG_WH" (packCode F 10) +
        20 * st.inv "FG_WH" (packCode F 20)) ∧
  ∀ p : String, 0 ≤ st.inv "FG_WH" p

theorem applyTx_inv_same_wh (t wh pr : String) (q : ℚ) (u : Nat) (st : State)
    (y : String) :
    (applyTx t wh pr q u st).inv wh y = st.inv wh y + (if y = pr then q else 0) := by
  by_cases hy : y = pr <;> simp [applyTx, hy]

theorem fginv_applyTx_other {wh : String} (t pr : String) (q : ℚ) (u : Nat)
    {st : State} (hwh : wh ≠ "FG_WH") (h : FGInv st) :
    FGInv (applyTx t wh pr q u st) := by
  have hx : ∀ x, (applyTx t wh pr q u st).inv "FG_WH" x = st.inv "FG_WH" x :=
    fun x => applyTx_inv_ne _ _ _ _ fun hc => hwh hc.1.symm
  exact ⟨fun F => by rw [hx, hx, hx, hx]; exact h.1 F,
    fun p => by rw [hx]; exact h.2 p⟩

theorem fginv_commitRaws (cat : Catalog) (rows : List FormulaRow) (liters : ℚ)
    (u : Nat) {st : State} (h : FGInv st) :
    FGInv (commitRaws cat rows liters u st).1 := by
  have hx : ∀ x, (commitRaws cat rows liters u st).1.inv "FG_WH" x =
      st.inv "FG_WH" x :=
    fun x => commitRaws_inv_frame cat rows liters u st (Or.inl (by decide))
  exact ⟨fun F => by rw [hx, hx, hx, hx]; exact h.1 F,
    fun p => by rw [hx]; exact h.2 p⟩

theorem fginv_purchaseLoop (cat : Catalog) (items : List PurchaseItem)
    (u : Nat) {st : State} (h : FGInv st) :
    FGInv (purchaseLoop cat u items st).1 := by
  have hx : ∀ x, (purchaseLoop cat u items st).1.inv "FG_WH" x =
      st.inv "FG_WH" x :=
    fun x => purchaseLoop_inv_frame u st (Or.inl ⟨by decide, by decide⟩)
  exact ⟨fun F => by rw [hx, hx, hx, hx]; exact h.1 F,
    fun p => by rw [hx]; exact h.2 p⟩

theorem packCode_ne_packCode {pc1 pc2 : String} {s1 s2 : Nat}
    (h1 : s1 = 5 ∨ s1 = 10 ∨ s1 = 20) (h2 : s2 = 5 ∨ s2 = 10 ∨ s2 = 20)
    (hs : s1 ≠ s2) : packCode pc1 s1 ≠ packCode pc2 s2 :=
  fun h => hs (packCode_inj h1 h2 h).2

/-- Updating the packaged balance of `(pc, gs)` by `dn` and the liquid
balance of `pc` by `dn * gs` in the finished-goods warehouse preserves
the lockstep equality. -/
theorem fg_update_eq {pc : String} {gs : Nat}
    (hgs : gs = 5 ∨ gs = 10 ∨ gs = 20) (t1 t2 : String) (dn : ℚ) (u1 u2 : Nat)
    {base : State}
    (heq : ∀ F : String, base.inv "FG_WH" (litersCode F) =
      5 * base.inv "FG_WH" (packCode F 5) + 10 * base.inv "FG_WH" (packCode F 10) +
        20 * base.inv "FG_WH" (packCode F 20)) :
    ∀ F : String,
      (applyTx t2 "FG_WH" (litersCode pc) (dn * (gs : ℚ)) u2
        (applyTx t1 "FG_WH" (packCode pc gs) dn u1 base)).inv "FG_WH"
          (litersCode F) =
        5 * (applyTx t2 "FG_WH" (litersCode pc) (dn * (gs : ℚ)) u2
          (applyTx t1 "FG_WH" (packCode pc gs) dn u1 base)).inv "FG_WH"
            (packCode F 5) +
        10 * (applyTx t2 "FG_WH" (litersCode pc) (dn * (gs : ℚ)) u2
          (applyTx t1 "FG_WH" (packCode pc gs) dn u1 base)).inv "FG_WH"
            (packCode F 10) +
        20 * (applyTx t2 "FG_WH" (litersCode pc) (dn * (gs : ℚ)) u2
          (applyTx t1 "FG_WH" (packCode pc gs) dn u1 base)).inv "FG_WH"
            (packCode F 20) := by
  intro F
  have eP : ∀ y, (applyTx t1 "FG_WH" (packCode pc gs) dn u1 base).inv "FG_WH" y =
      base.inv "FG_WH" y + (if y = packCode pc gs then dn else 0) :=
    applyTx_inv_same_wh t1 "FG_WH" (packCode pc gs) dn u1 base
  have eL : ∀ y, (applyTx t2 "FG_WH" (litersCode pc) (dn * (gs : ℚ)) u2
      (applyTx t1 "FG_WH" (packCode pc gs) dn u1 base)).inv "FG_WH" y =
      (applyTx t1 "FG_WH" (packCode pc gs) dn u1 base).inv "FG_WH" y +
        (if y = litersCode pc then dn * (gs : ℚ) else 0) :=
    applyTx_inv_same_wh t2 "FG_WH" (litersCode pc) (dn * (gs : ℚ)) u2 _
  have n1 : litersCode F ≠ packCode pc gs := (packCode_ne_litersCode hgs).symm
  have n2 : packCode F 5 ≠ litersCode pc := packCode_ne_litersCode (Or.inl rfl)
  have n3 : packCode F 10 ≠ litersCode pc :=
    packCode_ne_litersCode (Or.inr (Or.inl rfl))
  have n4 : packCode F 20 ≠ litersCode pc :=
    packCode_ne_litersCode (Or.inr (Or.inr rfl))
  simp only [eL, eP]
  rw [if_neg n1, if_neg n2, if_neg n3, if_neg n4]
  by_cases hF : F = pc
  · subst hF
    rw [if_pos rfl]
    rcases hgs with rfl | rfl | rfl
    · rw [if_pos rfl,
        if_neg (packCode_ne_packCode (Or.inr (Or.inl rfl)) (Or.inl rfl) (by omega)),
        if_neg (packCode_ne_packCode (Or.inr (Or.inr rfl)) (Or.inl rfl) (by omega))]
      push_cast
      linarith [heq F]
    · rw [if_pos rfl,
        if_neg (packCode_ne_packCode (Or.inl rfl) (Or.inr (Or.inl rfl)) (by omega)),
        if_neg (packCode_ne_packCode (Or.inr (Or.inr rfl)) (Or.inr (Or.inl rfl)) (by omega))]
      push_cast
      linarith [heq F]
    · rw [if_pos rfl,
        if_neg (packCode_ne_packCode (Or.inl rfl) (Or.inr (Or.inr rfl)) (by omega)),
        if_neg (packCode_ne_packCode (Or.inr (Or.inl rfl)) (Or.inr (Or.inr rfl)) (by omega))]
      push_cast
      linarith [heq F]
  · rw [if_neg fun hh => hF (litersCode_inj hh),
      if_neg fun hh => hF (packCode_inj (Or.inl rfl) hgs hh).1,
      if_neg fun hh => hF (packCode_inj (Or.inr (Or.inl rfl)) hgs hh).1,
      if_neg fun hh => hF (packCode_inj (Or.inr (Or.inr rfl)) hgs hh).1]
    simpa using heq F

/-- The paired finished-goods update keeps all finished-goods balances
nonnegative, provided the two updated balances stay nonnegative. -/
theorem fg_update_nonneg {pc : String} {gs : Nat} (t1 t2 : String) (dn : ℚ)
    (u1 u2 : Nat) {base : State}
    (h0 : ∀ p : String, 0 ≤ base.inv "FG_WH" p)
    (hgs : gs = 5 ∨ gs = 10 ∨ gs = 20)
    (h1 : 0 ≤ base.inv "FG_WH" (packCode pc gs) + dn)
    (h2 : 0 ≤ base.inv "FG_WH" (litersCode pc) + dn * (gs : ℚ)) :
    ∀ p : String, 0 ≤ (applyTx t2 "FG_WH" (litersCode pc) (dn * (gs : ℚ)) u2
      (applyTx t1 "FG_WH" (packCode pc gs) dn u1 base)).inv "FG_WH" p := by
  intro p
  rw [applyTx_inv_same_wh, applyTx_inv_same_wh]
  by_cases hp : p = litersCode pc
  · subst hp
    rw [if_pos rfl, if_neg (Ne.symm (packCode_ne_litersCode hgs))]
    simpa using h2
  · rw [if_neg hp]
    by_cases hq : p = packCode pc gs
    · subst hq
      rw [if_pos rfl]
      simpa using h1
    · rw [if_neg hq]
      simpa using h0 p

theorem fginv_production (cat : Catalog) (pc : String) {gs : Nat}
    (n uid : Nat) {st : State} (hgs : gs = 5 ∨ gs = 10 ∨ gs = 20)
    (h : FGInv st) : FGInv (production cat pc gs n uid st).1 := by
  rcases production_enum cat pc gs n uid st with
    ⟨e, heq⟩ | ⟨hck, hg, heq | heq⟩ | ⟨hck, hg, heq⟩ <;> rw [heq]
  · exact h
  · exact fginv_applyTx_other _ _ _ _ (by decide)
      (fginv_commitRaws cat _ _ uid h)
  · exact fginv_applyTx_other _ _ _ _ (by decide)
      (fginv_commitRaws cat _ _ uid h)
  · have hbase : FGInv (applyTx "PRODUCTION" "GAL_WH" (gallonCode gs)
        (-(n : ℚ)) uid
        (commitRaws cat (prodRows cat pc) ((n : ℚ) * (gs : ℚ)) uid st).1) :=
      fginv_applyTx_other _ _ _ _ (by decide) (fginv_commitRaws cat _ _ uid h)
    constructor
    · exact fg_update_eq hgs "PRODUCTION" "PRODUCTION" (n : ℚ) uid uid hbase.1
    · refine fg_update_nonneg "PRODUCTION" "PRODUCTION" (n : ℚ) uid uid
        hbase.2 hgs ?_ ?_
      · have := hbase.2 (packCode pc gs)
        positivity
      · have := hbase.2 (litersCode pc)
        positivity

theorem fginv_sale (cat : Catalog) (pc : String) {gs : Nat} (n uid : Nat)
    {st : State} (hgs : gs = 5 ∨ gs = 10 ∨ gs = 20) (h : FGInv st) :
    FGInv (sale cat pc gs n uid st).1 := by
  rcases sale_enum cat pc gs n uid st with ⟨e, heq⟩ | ⟨h1, h2, heq⟩ <;> rw [heq]
  · exact h
  · have hm : -((n : ℚ) * (gs : ℚ)) = (-(n : ℚ)) * (gs : ℚ) := by ring
    rw [hm]
    constructor
    · exact fg_update_eq hgs "SALE" "SALE" (-(n : ℚ)) uid uid h.1
    · refine fg_update_nonneg "SALE" "SALE" (-(n : ℚ)) uid uid h.2 hgs ?_ ?_
      · linarith
      · have hm2 : (-(n : ℚ)) * (gs : ℚ) = -((n : ℚ) * (gs : ℚ)) := by ring
        rw [hm2]
        linarith

/-! ### States reachable through the engine routes

One step runs one route to completion (any outcome, including the routes
that fail after a partial commit) on inputs the zod schemas admit. -/

inductive EngineStep (cat : Catalog) : State → State → Prop where
  | production (pc : String) (gs n uid : Nat) (st : State)
      (hgs : gs = 5 ∨ gs = 10 ∨ gs = 20) (hn : 0 < n) :
      EngineStep cat st (production cat pc gs n uid st).1
  | sale (pc : String) (gs n uid : Nat) (st : State)
      (hgs : gs = 5 ∨ gs = 10 ∨ gs = 20) (hn : 0 < n) :
      EngineStep cat st (sale cat pc gs n uid st).1
  | purchase (items : List PurchaseItem) (uid : Nat) (st : State)
      (hne : items ≠ []) (hq : ∀ it ∈ items, 0 < it.qty) :
      EngineStep cat st (purchase cat items uid st).1

inductive EngineReach (cat : Catalog) : State → State → Prop where
  | refl (st : State) : EngineReach cat st st
  | step {st1 st2 st3 : State} : EngineReach cat st1 st2 →
      EngineStep cat st2 st3 → EngineReach cat st1 st3

/-- The store before any ledger entry is recorded: empty ledger, every
balance read as 0. -/
def initState : State := ⟨fun _ _ => 0, []⟩

theorem step_balanced {cat : Catalog} {st st' : State}
    (h : EngineStep cat st st') (hb : Balanced st) : Balanced st' := by
  cases h with
  | production pc gs n uid st hgs hn => exact balanced_production cat pc gs n uid hb
  | sale pc gs n uid st hgs hn => exact balanced_sale cat pc gs n uid hb
  | purchase items uid st hne hq => exact balanced_purchase cat items uid hb

theorem step_fginv {cat : Catalog} {st st' : State}
    (h : EngineStep cat st st') (hf : FGInv st) : FGInv st' := by
  cases h with
  | production pc gs n uid st hgs hn => exact fginv_production cat pc n uid hgs hf
  | sale pc gs n uid st hgs hn => exact fginv_sale cat pc n uid hgs hf
  | purchase items uid st hne hq =>
    rcases purchase_enum cat items uid st with ⟨e, heq⟩ | heq <;> rw [heq]
    · exact hf
    · exact fginv_purchaseLoop cat items uid hf

theorem reach_balanced {cat : Catalog} {st0 st : State}
    (h : EngineReach cat st0 st) (hb : Balanced st0) : Balanced st := by
  induction h with
  | refl => exact hb
  | step hr hs ih => exact step_balanced hs ih

theorem reach_fginv {cat : Catalog} {st0 st : State}
    (h : EngineReach cat st0 st) (hf : FGInv st0) : FGInv st := by
  induction h with
  | refl => exact hf
  | step hr hs ih => exact step_fginv hs ih

theorem initState_balanced : Balanced initState := fun _ _ => rfl

/-! ### Further helper lemmas -/

theorem applyTx_inv_ite (t wh pr : String) (q : ℚ) (u : Nat) (st : State)
    (w p : String) :
    (applyTx t wh pr q u st).inv w p =
      st.inv w p + (if w = wh ∧ p = pr then q else 0) := by
  by_cases hc : w = wh ∧ p = pr <;> simp [applyTx, hc]

theorem rawNeed_le (cat : Catalog) {st : State} {rows : List FormulaRow}
    {liters : ℚ} (hok : checkRaws cat st rows liters = .ok ())
    (hnd : rows.Pairwise (fun a b => a.rawCode ≠ b.rawCode)) {p : String}
    (h0 : 0 ≤ st.inv "RAW_WH" p) :
    rawNeed rows liters p ≤ st.inv "RAW_WH" p := by
  by_cases hmem : p ∈ rows.map (·.rawCode)
  · obtain ⟨f, hf, rfl⟩ := List.mem_map.mp hmem
    rw [rawNeed_of_mem hnd hf]
    exact ((checkRaws_ok_iff cat st rows liters).mp hok f hf).2
  · rw [rawNeed_of_not_mem (fun f hf he => hmem (List.mem_map.mpr ⟨f, hf, he⟩))
      liters]
    exact h0

/-- The error kinds the stock pre-checks produce. -/
def Err.isInsufficiency : Err → Bool
  | .insufficientRaw _ _ _ => true
  | .insufficientContainers _ _ => true
  | .insufficientPackaged _ _ => true
  | .insufficientLiquid _ _ => true
  | _ => false

/-- Recognizer for the defensive liquid-stock rejection of `POST /sales`. -/
def isLiquidFailure : Except Err SaleResult → Bool
  | .error (.insufficientLiquid _ _) => true
  | _ => false

/-- Direct characterization of a fully successful production run. -/
theorem production_success (cat : Catalog) (pc : String) (gs n uid : Nat)
    (st : State)
    (hR : (cat.warehouses "RAW_WH").isSome = true)
    (hG : (cat.warehouses "GAL_WH").isSome = true)
    (hF : (cat.warehouses "FG_WH").isSome = true)
    (hne : prodRows cat pc ≠ [])
    (hraws : ∀ f ∈ prodRows cat pc, (cat.products f.rawCode).isSome = true ∧
      f.kgPerLiter * ((n : ℚ) * (gs : ℚ)) ≤ st.inv "RAW_WH" f.rawCode)
    (hgp : (cat.products (gallonCode gs)).isSome = true)
    (hgq : (n : ℚ) ≤ st.inv "GAL_WH" (gallonCode gs))
    (hpp : (cat.products (packCode pc gs)).isSome = true)
    (hlp : (cat.products (litersCode pc)).isSome = true) :
    production cat pc gs n uid st =
      (applyTx "PRODUCTION" "FG_WH" (litersCode pc) ((n : ℚ) * (gs : ℚ)) uid
        (applyTx "PRODUCTION" "FG_WH" (packCode pc gs) ((n : ℚ)) uid
          (applyTx "PRODUCTION" "GAL_WH" (gallonCode gs) (-(n : ℚ)) uid
            (commitRaws cat (prodRows cat pc) ((n : ℚ) * (gs : ℚ)) uid st).1)),
       .ok ⟨pc, gs, n, (n : ℚ) * (gs : ℚ),
         (prodRows cat pc).map fun f =>
           ⟨f.rawCode, f.kgPerLiter * ((n : ℚ) * (gs : ℚ))⟩⟩) := by
  obtain ⟨wR, hR⟩ := Option.isSome_iff_exists.mp hR
  obtain ⟨wG, hG⟩ := Option.isSome_iff_exists.mp hG
  obtain ⟨wF, hF⟩ := Option.isSome_iff_exists.mp hF
  obtain ⟨pg, hgp⟩ := Option.isSome_iff_exists.mp hgp
  obtain ⟨pp, hpp⟩ := Option.isSome_iff_exists.mp hpp
  obtain ⟨pl, hlp⟩ := Option.isSome_iff_exists.mp hlp
  have hemp : (prodRows cat pc).isEmpty = false := by
    cases hrows : prodRows cat pc with
    | nil => exact absurd hrows hne
    | cons a b => rfl
  have hck : checkRaws cat st (prodRows cat pc) ((n : ℚ) * (gs : ℚ)) = .ok () :=
    (checkRaws_ok_iff cat st _ _).mpr hraws
  have hcr := commitRaws_spec cat (prodRows cat pc) ((n : ℚ) * (gs : ℚ)) uid st
    fun f hf => (hraws f hf).1
  have hq : ¬(getInv st "GAL_WH" (gallonCode gs) < (n : ℚ)) := not_lt.mpr hgq
  simp [production, hR, hG, hF, hemp, hck, hgp, hq, hcr, hpp, hlp]

/-- Direct characterization of the packaged-stock rejection of a sale. -/
theorem sale_reject_pack (cat : Catalog) (pc : String) (gs n uid : Nat)
    (st : State)
    (hF : (cat.warehouses "FG_WH").isSome = true)
    (hpp : (cat.products (packCode pc gs)).isSome = true)
    (hlp : (cat.products (litersCode pc)).isSome = true)
    (hlt : st.inv "FG_WH" (packCode pc gs) < (n : ℚ)) :
    sale cat pc gs n uid st =
      (st, .error (.insufficientPackaged (st.inv "FG_WH" (packCode pc gs))
        ((n : ℚ)))) := by
  obtain ⟨wF, hF⟩ := Option.isSome_iff_exists.mp hF
  obtain ⟨pp, hpp⟩ := Option.isSome_iff_exists.mp hpp
  obtain ⟨pl, hlp⟩ := Option.isSome_iff_exists.mp hlp
  simp [sale, hF, hpp, hlp, getInv, hlt]

/-- Direct characterization of a successful sale. -/
theorem sale_success (cat : Catalog) (pc : String) (gs n uid : Nat)
    (st : State)
    (hF : (cat.warehouses "FG_WH").isSome = true)
    (hpp : (cat.products (packCode pc gs)).isSome = true)
    (hlp : (cat.products (litersCode pc)).isSome = true)
    (h1 : (n : ℚ) ≤ st.inv "FG_WH" (packCode pc gs))
    (h2 : (n : ℚ) * (gs : ℚ) ≤ st.inv "FG_WH" (litersCode pc)) :
    sale cat pc gs n uid st =
      (applyTx "SALE" "FG_WH" (litersCode pc) (-((n : ℚ) * (gs : ℚ))) uid
        (applyTx "SALE" "FG_WH" (packCode pc gs) (-(n : ℚ)) uid st),
       .ok ⟨pc, gs, n, (n : ℚ) * (gs : ℚ)⟩) := by
  obtain ⟨wF, hF⟩ := Option.isSome_iff_exists.mp hF
  obtain ⟨pp, hpp⟩ := Option.isSome_iff_exists.mp hpp
  obtain ⟨pl, hlp⟩ := Option.isSome_iff_exists.mp hlp
  simp [sale, hF, hpp, hlp, getInv, not_lt.mpr h1, not_lt.mpr h2]

theorem alertsGo_append (cat : Catalog) (st : State)
    (l1 l2 : List AlertRuleRow) :
    alertsGo cat st (l1 ++ l2) = alertsGo cat st l1 ++ alertsGo cat st l2 := by
  induction l1 with
  | nil => rfl
  | cons r rest ih =>
    cases hw : cat.warehouses r.warehouseCode with
    | none => simp [alertsGo, hw, ih]
    | some wh =>
      cases hp : cat.products r.productCode with
      | none => simp [alertsGo, hw, hp, ih]
      | some pr =>
        by_cases hq : getInv st r.warehouseCode r.productCode < r.minQty <;>
          simp [alertsGo, hw, hp, hq, ih]

/-! ### Concrete catalogs and states for the witnesses -/

/-- Example catalog: the three fixed warehouses, two raw materials, two
container sizes, and the TP family with an integer-valued formula. -/
def exCat : Catalog where
  warehouses := fun c =>
    if c = "RAW_WH" then some ⟨"Raw materials"⟩
    else if c = "GAL_WH" then some ⟨"Gallons"⟩
    else if c = "FG_WH" then some ⟨"Finished goods"⟩ else none
  products := fun c =>
    if c = "P" then some ⟨"RAW", "kg"⟩
    else if c = "S" then some ⟨"RAW", "kg"⟩
    else if c = "GALLON_5" then some ⟨"GALLON", "count"⟩
    else if c = "GALLON_10" then some ⟨"GALLON", "count"⟩
    else if c = "TP_PACK_5" then some ⟨"PRODUCT_PACK", "count"⟩
    else if c = "TP_PACK_10" then some ⟨"PRODUCT_PACK", "count"⟩
    else if c = "TP_LITERS" then some ⟨"PRODUCT_LIQUID", "liter"⟩ else none
  formulas := [⟨"TP", "P", 2⟩, ⟨"TP", "S", 3⟩]
  alertRules := [⟨"RAW_WH", "S", 10000⟩]

/-! ### The claims -/

/-- C4: every state reachable from the pristine store through engine
operations alone keeps every (warehouse, product) balance equal to the sum
of the ledger deltas for that pair; each write path appends the matching
ledger entry together with the balance update, creating the balance row
at 0 first when absent.  (The seed script writes balances with no ledger
entry, but it is not an engine operation.) -/
theorem claim_C4 (cat : Catalog) (st : State)
    (h : EngineReach cat initState st) :
    ∀ w p, st.inv w p = ledgerSum w p st.ledger :=
  reach_balanced h initState_balanced

theorem claim_C4_witness :
    (purchase exCat [⟨"P", 5⟩] 0 initState).1.inv "RAW_WH" "P" =
      ledgerSum "RAW_WH" "P" (purchase exCat [⟨"P", 5⟩] 0 initState).1.ledger :=
  claim_C4 exCat _
    (EngineReach.step (EngineReach.refl initState)
      (EngineStep.purchase [⟨"P", 5⟩] 0 initState (by decide) (by decide)))
    "RAW_WH" "P"

/-- C5: from any state satisfying the finished-goods lockstep invariant
(liquid balance equals the size-weighted sum of packaged balances, all
finished-goods balances nonnegative), no sequence of engine operations can
reach a state in which a sale passes the packaged-stock check yet fails
the liquid-stock check: the `InsufficientLiquidStock` branch never fires. -/
theorem claim_C5 (cat : Catalog) {st0 st : State} (pc : String)
    (gs n uid : Nat) (hreach : EngineReach cat st0 st) (hinv : FGInv st0)
    (hgs : gs = 5 ∨ gs = 10 ∨ gs = 20) :
    isLiquidFailure (sale cat pc gs n uid st).2 = false := by
  have hst : FGInv st := reach_fginv hreach hinv
  cases hF : cat.warehouses "FG_WH" with
  | none => simp [sale, hF, isLiquidFailure]
  | some wF =>
  cases hpp : cat.products (packCode pc gs) with
  | none => simp [sale, hF, hpp, isLiquidFailure]
  | some ppk =>
  cases hlp : cat.products (litersCode pc) with
  | none => simp [sale, hF, hpp, hlp, isLiquidFailure]
  | some plt =>
  by_cases h1 : getInv st "FG_WH" (packCode pc gs) < (n : ℚ)
  · simp [sale, hF, hpp, hlp, h1, isLiquidFailure]
  · by_cases h2 : getInv st "FG_WH" (litersCode pc) < (n : ℚ) * (gs : ℚ)
    · exfalso
      have hL := hst.1 pc
      have hp1 : (n : ℚ) ≤ st.inv "FG_WH" (packCode pc gs) := by
        simpa [getInv] using not_lt.mp h1
      have h2' : st.inv "FG_WH" (litersCode pc) < (n : ℚ) * (gs : ℚ) := by
        simpa [getInv] using h2
      rcases hgs with rfl | rfl | rfl
      · have n2 := hst.2 (packCode pc 10)
        have n3 := hst.2 (packCode pc 20)
        push_cast at h2'
        linarith
      · have n2 := hst.2 (packCode pc 5)
        have n3 := hst.2 (packCode pc 20)
        push_cast at h2'
        linarith
      · have n2 := hst.2 (packCode pc 5)
        have n3 := hst.2 (packCode pc 10)
        push_cast at h2'
        linarith
    · simp [sale, hF, hpp, hlp, h1, h2, isLiquidFailure]

theorem claim_C5_witness :
    isLiquidFailure (sale exCat "TP" 5 3 0 initState).2 = false :=
  claim_C5 exCat "TP" 5 3 0 (EngineReach.refl initState)
    ⟨fun F => by simp [initState], fun p => by simp [initState]⟩ (Or.inl rfl)

/-- C7: a sale whose packaged balance is below the requested count is
rejected with `InsufficientPackagedStock` carrying the available and
needed quantities and no state change; otherwise, when the liquid check
also passes, exactly the two negative entries (packaged `-count`, then
liquid `-count*size`) are appended against the finished-goods
warehouse. -/
theorem claim_C7 (cat : Catalog) (pc : String) (gs n uid : Nat) (st : State)
    (hF : (cat.warehouses "FG_WH").isSome = true)
    (hpp : (cat.products (packCode pc gs)).isSome = true)
    (hlp : (cat.products (litersCode pc)).isSome = true) :
    (st.inv "FG_WH" (packCode pc gs) < (n : ℚ) →
      sale cat pc gs n uid st =
        (st, .error (.insufficientPackaged (st.inv "FG_WH" (packCode pc gs))
          (n : ℚ)))) ∧
    ((n : ℚ) ≤ st.inv "FG_WH" (packCode pc gs) →
      (n : ℚ) * (gs : ℚ) ≤ st.inv "FG_WH" (litersCode pc) →
      (sale cat pc gs n uid st).2 = .ok ⟨pc, gs, n, (n : ℚ) * (gs : ℚ)⟩ ∧
      (sale cat pc gs n uid st).1.ledger = st.ledger ++
        [⟨"SALE", "FG_WH", packCode pc gs, -(n : ℚ), uid⟩,
         ⟨"SALE", "FG_WH", litersCode pc, -((n : ℚ) * (gs : ℚ)), uid⟩]) := by
  constructor
  · intro hlt
    exact sale_reject_pack cat pc gs n uid st hF hpp hlp hlt
  · intro h1 h2
    rw [sale_success cat pc gs n uid st hF hpp hlp h1 h2]
    refine ⟨rfl, ?_⟩
    rw [applyTx_ledger, applyTx_ledger, List.append_assoc]
    rfl

theorem claim_C7_witness :
    sale exCat "TP" 5 15 0
        ⟨fun w p => if w = "FG_WH" ∧ p = "TP_PACK_5" then 10 else 0, []⟩ =
      (⟨fun w p => if w = "FG_WH" ∧ p = "TP_PACK_5" then 10 else 0, []⟩,
       .error (.insufficientPackaged 10 15)) := by
  have epk : packCode "TP" 5 = "TP_PACK_5" := by decide
  have elt : litersCode "TP" = "TP_LITERS" := by decide
  have hF : (exCat.warehouses "FG_WH").isSome = true := rfl
  have hpp : (exCat.products (packCode "TP" 5)).isSome = true := by
    rw [epk]; rfl
  have hlp : (exCat.products (litersCode "TP")).isSome = true := by
    rw [elt]; rfl
  have h := (claim_C7 exCat "TP" 5 15 0
    ⟨fun w p => if w = "FG_WH" ∧ p = "TP_PACK_5" then 10 else 0, []⟩
    hF hpp hlp).1
  rw [epk] at h
  simpa using h (by norm_num)

/-- C8: for every configured alert rule whose warehouse and product codes
resolve, the evaluator reads the current balance (0 when no row exists)
and emits exactly one breach record carrying that balance and the
threshold precisely when the balance is strictly below `minQty`; a
balance equal to `minQty` emits nothing. -/
theorem claim_C8 (cat : Catalog) (st : State) (pre post : List AlertRuleRow)
    (r : AlertRuleRow) {wh : WarehouseRow} {pr : ProductRow}
    (hw : cat.warehouses r.warehouseCode = some wh)
    (hp : cat.products r.productCode = some pr) :
    alertsGo cat st (pre ++ r :: post) =
      alertsGo cat st pre ++
      (if st.inv r.warehouseCode r.productCode < r.minQty then
        [⟨wh.name, r.productCode, st.inv r.warehouseCode r.productCode,
          r.minQty, pr.unit⟩]
      else []) ++
      alertsGo cat st post := by
  rw [alertsGo_append]
  by_cases hq : st.inv r.warehouseCode r.productCode < r.minQty <;>
    simp [alertsGo, hw, hp, getInv, hq]

theorem claim_C8_witness :
    alertsGo exCat ⟨fun w p => if w = "RAW_WH" ∧ p = "S" then 9000 else 0, []⟩
        ([] ++ ⟨"RAW_WH", "S", 10000⟩ :: []) =
      [⟨"Raw materials", "S", 9000, 10000, "kg"⟩] := by
  have h := claim_C8 exCat
    ⟨fun w p => if w = "RAW_WH" ∧ p = "S" then 9000 else 0, []⟩ [] []
    ⟨"RAW_WH", "S", 10000⟩ (rfl : exCat.warehouses "RAW_WH" = some ⟨"Raw materials"⟩)
    (rfl : exCat.products "S" = some ⟨"RAW", "kg"⟩)
  simpa [alertsGo] using h

/-- The state after the raw-material and container commits of a
production run keeps every balance nonnegative when the pre-checks
passed on a nonnegative state. -/
theorem prodPartial_nonneg (cat : Catalog) (pc : String) (gs n uid : Nat)
    (st : State)
    (hck : checkRaws cat st (prodRows cat pc) ((n : ℚ) * (gs : ℚ)) = .ok ())
    (hnd : (prodRows cat pc).Pairwise (fun a b => a.rawCode ≠ b.rawCode))
    (h0 : ∀ w p, 0 ≤ st.inv w p)
    (hg : (n : ℚ) ≤ st.inv "GAL_WH" (gallonCode gs)) :
    ∀ w p, 0 ≤ (applyTx "PRODUCTION" "GAL_WH" (gallonCode gs) (-(n : ℚ)) uid
      (commitRaws cat (prodRows cat pc) ((n : ℚ) * (gs : ℚ)) uid st).1).inv w p := by
  intro w p
  have hres : ∀ f ∈ prodRows cat pc, (cat.products f.rawCode).isSome = true :=
    fun f hf => ((checkRaws_ok_iff cat st _ _).mp hck f hf).1
  have hcr := commitRaws_spec cat (prodRows cat pc) ((n : ℚ) * (gs : ℚ)) uid st hres
  rw [applyTx_inv_ite, hcr]
  dsimp only
  by_cases hw : w = "RAW_WH"
  · subst hw
    rw [if_pos rfl, if_neg (by rintro ⟨h, -⟩; exact absurd h (by decide))]
    have := rawNeed_le cat hck hnd (h0 "RAW_WH" p)
    linarith
  · rw [if_neg hw]
    by_cases hc : w = "GAL_WH" ∧ p = gallonCode gs
    · obtain ⟨rfl, rfl⟩ := hc
      rw [if_pos ⟨rfl, rfl⟩]
      linarith
    · rw [if_neg hc]
      have := h0 w p
      linarith

/-- C6: from a state with all balances nonnegative, a production or sale
that succeeds leaves every balance nonnegative, and a production or sale
rejected by a stock pre-check (insufficient raw material, containers,
packaged stock, or liquid stock) changes nothing at all.  The
nonnegativity conclusions hold for every outcome of the routes, which
subsumes the successful case the claim describes. -/
theorem claim_C6 (cat : Catalog) (pc : String) (gs n uid : Nat) (st : State)
    (hgs : gs = 5 ∨ gs = 10 ∨ gs = 20)
    (hnd : (prodRows cat pc).Pairwise (fun a b => a.rawCode ≠ b.rawCode))
    (h0 : ∀ w p, 0 ≤ st.inv w p) :
    (∀ w p, 0 ≤ (production cat pc gs n uid st).1.inv w p) ∧
    (∀ w p, 0 ≤ (sale cat pc gs n uid st).1.inv w p) ∧
    (∀ e, (production cat pc gs n uid st).2 = .error e →
      e.isInsufficiency = true → (production cat pc gs n uid st).1 = st) ∧
    (∀ e, (sale cat pc gs n uid st).2 = .error e →
      e.isInsufficiency = true → (sale cat pc gs n uid st).1 = st) := by
  refine ⟨?_, ?_, ?_, ?_⟩
  · rcases production_enum cat pc gs n uid st with
      ⟨e, heq⟩ | ⟨hck, hg, heq | heq⟩ | ⟨hck, hg, heq⟩ <;> rw [heq] <;> intro w p
    · exact h0 w p
    · exact prodPartial_nonneg cat pc gs n uid st hck hnd h0 hg w p
    · exact prodPartial_nonneg cat pc gs n uid st hck hnd h0 hg w p
    · rw [applyTx_inv_ite, applyTx_inv_ite]
      refine add_nonneg (add_nonneg
        (prodPartial_nonneg cat pc gs n uid st hck hnd h0 hg w p) ?_) ?_ <;>
        split <;> positivity
  · rcases sale_enum cat pc gs n uid st with ⟨e, heq⟩ | ⟨h1, h2, heq⟩ <;>
      rw [heq] <;> intro w p
    · exact h0 w p
    · rw [applyTx_inv_ite, applyTx_inv_ite]
      by_cases cL : w = "FG_WH" ∧ p = litersCode pc
      · obtain ⟨rfl, rfl⟩ := cL
        rw [if_neg fun hc => packCode_ne_litersCode hgs hc.2.symm,
          if_pos ⟨rfl, rfl⟩]
        linarith
      · rw [if_neg cL]
        by_cases cP : w = "FG_WH" ∧ p = packCode pc gs
        · obtain ⟨rfl, rfl⟩ := cP
          rw [if_pos ⟨rfl, rfl⟩]
          linarith
        · rw [if_neg cP]
          linarith [h0 w p]
  · intro e he hins
    rcases production_enum cat pc gs n uid st with
      ⟨e', heq⟩ | ⟨hck, hg, heq | heq⟩ | ⟨hck, hg, heq⟩
    · rw [heq]
    · rw [heq] at he
      simp only [Except.error.injEq] at he
      rw [← he] at hins
      simp [Err.isInsufficiency] at hins
    · rw [heq] at he
      simp only [Except.error.injEq] at he
      rw [← he] at hins
      simp [Err.isInsufficiency] at hins
    · rw [heq] at he
      simp at he
  · intro e he hins
    rcases sale_enum cat pc gs n uid st with ⟨e', heq⟩ | ⟨h1, h2, heq⟩
    · rw [heq]
    · rw [heq] at he
      simp at he

theorem claim_C6_witness :
    (sale exCat "TP" 5 3 0 initState).1 = initState := by
  have epk : packCode "TP" 5 = "TP_PACK_5" := by decide
  have elt : litersCode "TP" = "TP_LITERS" := by decide
  refine (claim_C6 exCat "TP" 5 3 0 initState (Or.inl rfl) (by decide)
    (fun w p => le_refl 0)).2.2.2 (.insufficientPackaged 0 3) ?_ rfl
  simp +decide [sale, getInv, epk, elt, exCat, initState]

/-- C10: a production run touches only the raw-material balances of its
formula rows, the matching container balance, and its packaged and liquid
finished-goods balances; a sale touches only the latter two; a purchase
touches only the balances of the product codes listed in its items.  The
statements hold for every outcome of the routes, hence in particular for
successful ones; the catalog tables and alert rules are immutable inputs
of the embedding and cannot change. -/
theorem claim_C10 (cat : Catalog) (pc : String) (gs n uid : Nat) (st : State)
    (items : List PurchaseItem) :
    (∀ w p, ¬(w = "RAW_WH" ∧ p ∈ (prodRows cat pc).map (·.rawCode)) →
      ¬(w = "GAL_WH" ∧ p = gallonCode gs) →
      ¬(w = "FG_WH" ∧ (p = packCode pc gs ∨ p = litersCode pc)) →
      (production cat pc gs n uid st).1.inv w p = st.inv w p) ∧
    (∀ w p, ¬(w = "FG_WH" ∧ (p = packCode pc gs ∨ p = litersCode pc)) →
      (sale cat pc gs n uid st).1.inv w p = st.inv w p) ∧
    (∀ w p, p ∉ items.map (·.code) →
      (purchase cat items uid st).1.inv w p = st.inv w p) := by
  refine ⟨?_, ?_, ?_⟩
  · intro w p h1 h2 h3
    have hor : w ≠ "RAW_WH" ∨ p ∉ (prodRows cat pc).map (·.rawCode) := by
      by_cases hw : w = "RAW_WH"
      · exact Or.inr fun hmem => h1 ⟨hw, hmem⟩
      · exact Or.inl hw
    rcases production_enum cat pc gs n uid st with
      ⟨e, heq⟩ | ⟨hck, hg, heq | heq⟩ | ⟨hck, hg, heq⟩ <;> rw [heq]
    · rw [applyTx_inv_ne _ _ _ _ h2]
      exact commitRaws_inv_frame cat _ _ uid st hor
    · rw [applyTx_inv_ne _ _ _ _ h2]
      exact commitRaws_inv_frame cat _ _ uid st hor
    · rw [applyTx_inv_ne _ _ _ _ fun hc => h3 ⟨hc.1, Or.inr hc.2⟩,
        applyTx_inv_ne _ _ _ _ fun hc => h3 ⟨hc.1, Or.inl hc.2⟩,
        applyTx_inv_ne _ _ _ _ h2]
      exact commitRaws_inv_frame cat _ _ uid st hor
  · intro w p hB
    rcases sale_enum cat pc gs n uid st with ⟨e, heq⟩ | ⟨h1, h2, heq⟩ <;>
      rw [heq]
    rw [applyTx_inv_ne _ _ _ _ fun hc => hB ⟨hc.1, Or.inr hc.2⟩,
      applyTx_inv_ne _ _ _ _ fun hc => hB ⟨hc.1, Or.inl hc.2⟩]
  · intro w p hc
    rcases purchase_enum cat items uid st with ⟨e, heq⟩ | heq <;> rw [heq]
    exact purchaseLoop_inv_frame uid st (Or.inr hc)

theorem claim_C10_witness :
    (purchase exCat [⟨"P", 5⟩] 0 initState).1.inv "GAL_WH" "GALLON_10" =
      initState.inv "GAL_WH" "GALLON_10" :=
  (claim_C10 exCat "TP" 5 1 0 initState [⟨"P", 5⟩]).2.2 "GAL_WH" "GALLON_10"
    (by decide)

/-- C3: a production run whose pre-checks pass succeeds with
`liters = count * containerSize`, consumes exactly
`kgPerLiter * liters` of each formula raw material and `count`
containers, adds `count` packaged units and `liters` liquid to
finished goods, commits the entries in that order (raw materials,
containers, packaged, liquid), and echoes the request together with the
consumed quantities. -/
theorem claim_C3 (cat : Catalog) (pc : String) (gs n uid : Nat) (st : State)
    (hgs : gs = 5 ∨ gs = 10 ∨ gs = 20)
    (hR : (cat.warehouses "RAW_WH").isSome = true)
    (hG : (cat.warehouses "GAL_WH").isSome = true)
    (hF : (cat.warehouses "FG_WH").isSome = true)
    (hne : prodRows cat pc ≠ [])
    (hraws : ∀ f ∈ prodRows cat pc, (cat.products f.rawCode).isSome = true ∧
      f.kgPerLiter * ((n : ℚ) * (gs : ℚ)) ≤ st.inv "RAW_WH" f.rawCode)
    (hnd : (prodRows cat pc).Pairwise (fun a b => a.rawCode ≠ b.rawCode))
    (hgp : (cat.products (gallonCode gs)).isSome = true)
    (hgq : (n : ℚ) ≤ st.inv "GAL_WH" (gallonCode gs))
    (hpp : (cat.products (packCode pc gs)).isSome = true)
    (hlp : (cat.products (litersCode pc)).isSome = true) :
    (production cat pc gs n uid st).2 =
      .ok ⟨pc, gs, n, (n : ℚ) * (gs : ℚ),
        (prodRows cat pc).map fun f =>
          ⟨f.rawCode, f.kgPerLiter * ((n : ℚ) * (gs : ℚ))⟩⟩ ∧
    (∀ f ∈ prodRows cat pc,
      (production cat pc gs n uid st).1.inv "RAW_WH" f.rawCode =
        st.inv "RAW_WH" f.rawCode - f.kgPerLiter * ((n : ℚ) * (gs : ℚ))) ∧
    (production cat pc gs n uid st).1.inv "GAL_WH" (gallonCode gs) =
      st.inv "GAL_WH" (gallonCode gs) - (n : ℚ) ∧
    (production cat pc gs n uid st).1.inv "FG_WH" (packCode pc gs) =
      st.inv "FG_WH" (packCode pc gs) + (n : ℚ) ∧
    (production cat pc gs n uid st).1.inv "FG_WH" (litersCode pc) =
      st.inv "FG_WH" (litersCode pc) + (n : ℚ) * (gs : ℚ) ∧
    (production cat pc gs n uid st).1.ledger =
      st.ledger ++ (prodRows cat pc).map (rawEntry ((n : ℚ) * (gs : ℚ)) uid) ++
        [⟨"PRODUCTION", "GAL_WH", gallonCode gs, -(n : ℚ), uid⟩,
         ⟨"PRODUCTION", "FG_WH", packCode pc gs, (n : ℚ), uid⟩,
         ⟨"PRODUCTION", "FG_WH", litersCode pc, (n : ℚ) * (gs : ℚ), uid⟩] := by
  have hprod := production_success cat pc gs n uid st hR hG hF hne hraws hgp
    hgq hpp hlp
  have hcr := commitRaws_spec cat (prodRows cat pc) ((n : ℚ) * (gs : ℚ)) uid st
    fun f hf => (hraws f hf).1
  refine ⟨?_, ?_, ?_, ?_, ?_, ?_⟩
  · rw [hprod]
  · intro f hf
    rw [hprod]
    rw [applyTx_inv_ne _ _ _ _ (by rintro ⟨hww, -⟩; exact absurd hww (by decide)),
      applyTx_inv_ne _ _ _ _ (by rintro ⟨hww, -⟩; exact absurd hww (by decide)),
      applyTx_inv_ne _ _ _ _ (by rintro ⟨hww, -⟩; exact absurd hww (by decide)),
      hcr]
    dsimp only
    rw [if_pos rfl, rawNeed_of_mem hnd hf]
  · rw [hprod]
    rw [applyTx_inv_ne _ _ _ _ (by rintro ⟨hww, -⟩; exact absurd hww (by decide)),
      applyTx_inv_ne _ _ _ _ (by rintro ⟨hww, -⟩; exact absurd hww (by decide)),
      applyTx_inv_self, hcr]
    dsimp only
    rw [if_neg (by decide)]
    ring
  · rw [hprod]
    rw [applyTx_inv_ne _ _ _ _ fun hc => packCode_ne_litersCode hgs hc.2,
      applyTx_inv_self,
      applyTx_inv_ne _ _ _ _ (by rintro ⟨hww, -⟩; exact absurd hww (by decide)),
      hcr]
    dsimp only
    rw [if_neg (by decide)]
  · rw [hprod]
    rw [applyTx_inv_self,
      applyTx_inv_ne _ _ _ _ fun hc => packCode_ne_litersCode hgs hc.2.symm,
      applyTx_inv_ne _ _ _ _ (by rintro ⟨hww, -⟩; exact absurd hww (by decide)),
      hcr]
    dsimp only
    rw [if_neg (by decide)]
  · rw [hprod]
    rw [applyTx_ledger, applyTx_ledger, applyTx_ledger, hcr]
    dsimp only
    simp [List.append_assoc]

/-- State for the C3 witness: 1000 kg of each raw material and 50 empty
ten-liter containers. -/
def exStP : State where
  inv := fun w p =>
    if w = "RAW_WH" ∧ p = "P" then 1000
    else if w = "RAW_WH" ∧ p = "S" then 1000
    else if w = "GAL_WH" ∧ p = "GALLON_10" then 50 else 0
  ledger := []

theorem claim_C3_witness :
    (production exCat "TP" 10 20 1 exStP).1.inv "GAL_WH" "GALLON_10" = 30 := by
  have egc : gallonCode 10 = "GALLON_10" := by decide
  have epk : packCode "TP" 10 = "TP_PACK_10" := by decide
  have elt : litersCode "TP" = "TP_LITERS" := by decide
  have hrows : prodRows exCat "TP" = [⟨"TP", "P", 2⟩, ⟨"TP", "S", 3⟩] := by
    decide
  have h := (claim_C3 exCat "TP" 10 20 1 exStP (Or.inr (Or.inl rfl)) rfl rfl rfl
    (by decide)
    (by
      intro f hf
      rw [hrows] at hf
      simp only [List.mem_cons, List.not_mem_nil, or_false] at hf
      rcases hf with rfl | rfl
      · exact ⟨rfl, by simp [exStP]; norm_num⟩
      · exact ⟨rfl, by simp [exStP]; norm_num⟩)
    (by decide)
    (by rw [egc]; rfl)
    (by rw [egc]; simp [exStP]; norm_num)
    (by rw [epk]; rfl)
    (by rw [elt]; rfl)).2.2.1
  rw [egc] at h
  rw [h]
  simp [exStP]
  norm_num

/-- Catalog for the C1 counterexample: family X has a formula row and its
raw material and container resolve, but no `X_PACK_5` product exists. -/
def cexCat : Catalog where
  warehouses := fun c =>
    if c = "RAW_WH" then some ⟨"Raw materials"⟩
    else if c = "GAL_WH" then some ⟨"Gallons"⟩
    else if c = "FG_WH" then some ⟨"Finished goods"⟩ else none
  products := fun c =>
    if c = "R" then some ⟨"RAW", "kg"⟩
    else if c = "GALLON_5" then some ⟨"GALLON", "count"⟩ else none
  formulas := [⟨"X", "R", 1⟩]
  alertRules := []

/-- State for the C1 counterexample: 100 kg of R, 10 empty containers. -/
def cexSt : State where
  inv := fun w p =>
    if w = "RAW_WH" ∧ p = "R" then 100
    else if w = "GAL_WH" ∧ p = "GALLON_5" then 10 else 0
  ledger := []

/-- C1 fails as stated: this production run returns the typed failure
`UnknownProduct "X_PACK_5"`, yet the raw-material balance has already
dropped from 100 to 95 and two ledger entries have been appended — a
partial commit followed by a reported failure. -/
theorem claim_C1_counterexample :
    (production cexCat "X" 5 1 7 cexSt).2 =
      .error (.unknownProduct "X_PACK_5") ∧
    cexSt.inv "RAW_WH" "R" = 100 ∧
    (production cexCat "X" 5 1 7 cexSt).1.inv "RAW_WH" "R" = 95 ∧
    cexSt.ledger.length = 0 ∧
    (production cexCat "X" 5 1 7 cexSt).1.ledger.length = 2 := by
  have egc : gallonCode 5 = "GALLON_5" := by decide
  have epk : packCode "X" 5 = "X_PACK_5" := by decide
  have elt : litersCode "X" = "X_LITERS" := by decide
  refine ⟨?_, rfl, ?_, rfl, ?_⟩ <;>
    simp +decide [production, prodRows, checkRaws, commitRaws, applyTx, getInv,
      egc, epk, elt, cexCat, cexSt] <;> norm_num

/-- C1 (amended): a sale that returns any typed failure has changed
nothing, and a production run that returns any typed failure other than
an `UnknownProduct` failure for its packaged or liquid product code — the
two lookups the commit phase performs after the raw-material and
container entries are written — has changed nothing.  (The purchase batch
behaviour is characterized by C2.) -/
theorem claim_C1 :
    (∀ (cat : Catalog) (pc : String) (gs n uid : Nat) (st : State) (e : Err),
      (sale cat pc gs n uid st).2 = .error e →
      (sale cat pc gs n uid st).1 = st) ∧
    (∀ (cat : Catalog) (pc : String) (gs n uid : Nat) (st : State) (e : Err),
      (production cat pc gs n uid st).2 = .error e →
      e ≠ .unknownProduct (packCode pc gs) →
      e ≠ .unknownProduct (litersCode pc) →
      (production cat pc gs n uid st).1 = st) := by
  constructor
  · intro cat pc gs n uid st e he
    rcases sale_enum cat pc gs n uid st with ⟨e', heq⟩ | ⟨h1, h2, heq⟩
    · rw [heq]
    · rw [heq] at he
      simp at he
  · intro cat pc gs n uid st e he hne1 hne2
    rcases production_enum cat pc gs n uid st with
      ⟨e', heq⟩ | ⟨hck, hg, heq | heq⟩ | ⟨hck, hg, heq⟩
    · rw [heq]
    · rw [heq] at he
      simp only [Except.error.injEq] at he
      exact absurd he.symm hne1
    · rw [heq] at he
      simp only [Except.error.injEq] at he
      exact absurd he.symm hne2
    · rw [heq] at he
      simp at he

theorem claim_C1_witness :
    (sale exCat "TP" 10 2 0 initState).1 = initState := by
  have epk : packCode "TP" 10 = "TP_PACK_10" := by decide
  have elt : litersCode "TP" = "TP_LITERS" := by decide
  refine claim_C1.1 exCat "TP" 10 2 0 initState
    (.insufficientPackaged 0 2) ?_
  simp +decide [sale, getInv, epk, elt, exCat, initState]

/-- C2 fails as stated: the second item of this purchase batch is
rejected with `DisallowedPurchaseTarget`, yet the entry for the first
(valid) item has been committed: one ledger entry exists and the
raw-material balance has changed. -/
theorem claim_C2_counterexample :
    (purchase exCat [⟨"P", 5⟩, ⟨"TP_PACK_5", 1⟩] 0 initState).2 =
      .error (.disallowedPurchase "TP_PACK_5") ∧
    (purchase exCat [⟨"P", 5⟩, ⟨"TP_PACK_5", 1⟩] 0 initState).1.ledger.length
      = 1 ∧
    (purchase exCat [⟨"P", 5⟩, ⟨"TP_PACK_5", 1⟩] 0 initState).1.inv
      "RAW_WH" "P" = 5 := by
  refine ⟨?_, ?_, ?_⟩ <;>
    simp +decide [purchase, purchaseLoop, applyTx, getInv, exCat, initState]

/-- C2 (amended): when a purchase batch contains a bad item (unresolvable
code or disallowed kind), the whole request returns a typed failure and
the bad item and everything after it write nothing; but the entries of
the valid items preceding the first bad item remain committed, one ledger
entry per item.  Only when the first item is bad are zero entries
written. -/
theorem claim_C2 (cat : Catalog) (pre : List PurchaseItem)
    (bad : PurchaseItem) (post : List PurchaseItem) (uid : Nat) (st : State)
    (hR : (cat.warehouses "RAW_WH").isSome = true)
    (hG : (cat.warehouses "GAL_WH").isSome = true)
    (hpre : ∀ it ∈ pre, goodItem cat it) (hbad : badItem cat bad) :
    (∃ e, (purchase cat (pre ++ bad :: post) uid st).2 = .error e) ∧
    (purchase cat (pre ++ bad :: post) uid st).1 =
      (purchase cat pre uid st).1 ∧
    (purchase cat pre uid st).2 = .ok () ∧
    (purchase cat pre uid st).1.ledger.length =
      st.ledger.length + pre.length := by
  obtain ⟨wR, hR⟩ := Option.isSome_iff_exists.mp hR
  obtain ⟨wG, hG⟩ := Option.isSome_iff_exists.mp hG
  have hpurch : ∀ items, purchase cat items uid st =
      purchaseLoop cat uid items st := fun items => by simp [purchase, hR, hG]
  obtain ⟨e, hbadloop⟩ :=
    purchaseLoop_bad_head uid post (purchaseLoop cat uid pre st).1 hbad
  obtain ⟨hok, hlen⟩ := purchaseLoop_good_spec uid st hpre
  refine ⟨⟨e, ?_⟩, ?_, ?_, ?_⟩
  · rw [hpurch, purchaseLoop_append_good uid (bad :: post) st hpre, hbadloop]
  · rw [hpurch, hpurch, purchaseLoop_append_good uid (bad :: post) st hpre,
      hbadloop]
  · rw [hpurch]
    exact hok
  · rw [hpurch]
    exact hlen

theorem claim_C2_witness :
    (purchase exCat ([⟨"P", 5⟩] ++ ⟨"TP_PACK_5", 1⟩ :: []) 0 initState).1 =
      (purchase exCat [⟨"P", 5⟩] 0 initState).1 := by
  refine (claim_C2 exCat [⟨"P", 5⟩] ⟨"TP_PACK_5", 1⟩ [] 0 initState rfl rfl
    ?_ ?_).2.1
  · intro it hit
    simp only [List.mem_singleton] at hit
    subst hit
    exact ⟨⟨"RAW", "kg"⟩, rfl, Or.inl rfl⟩
  · intro p hp
    rw [show exCat.products "TP_PACK_5" = some ⟨"PRODUCT_PACK", "count"⟩
      from rfl] at hp
    injection hp with h
    subst h
    exact ⟨by decide, by decide⟩

/-- Catalog for the C9 counterexample: the warehouse of the configured
rule resolves but its product code does not. -/
def cex9 : Catalog where
  warehouses := fun c =>
    if c = "RAW_WH" then some ⟨"Raw materials"⟩
    else if c = "GAL_WH" then some ⟨"Gallons"⟩
    else if c = "FG_WH" then some ⟨"Finished goods"⟩ else none
  products := fun _ => none
  formulas := []
  alertRules := [⟨"RAW_WH", "Z", 10⟩]

/-- C9 fails as stated: a rule is configured for product `Z`, the balance
read for it (0, no row) is strictly below the threshold 10, yet the
evaluator returns no outcome at all for the rule — it is silently
skipped because `Z` does not resolve in the catalog. -/
theorem claim_C9_counterexample :
    cex9.alertRules = [⟨"RAW_WH", "Z", 10⟩] ∧
    (cex9.warehouses "RAW_WH").isSome = true ∧
    cex9.products "Z" = none ∧
    initState.inv "RAW_WH" "Z" < 10 ∧
    alertsActive cex9 initState = [] := by
  refine ⟨rfl, rfl, rfl, by decide, ?_⟩
  simp +decide [alertsActive, alertsGo, cex9]

/-- C9 (amended): catalog-resolution failures inside the three operations
surface as typed failures, but the alert evaluator does not: a configured
rule whose warehouse or product code fails to resolve is silently
skipped — the evaluator output is exactly what it would be if the rule
were absent, with no outcome recorded for it. -/
theorem claim_C9 (cat : Catalog) (st : State) (pre post : List AlertRuleRow)
    (r : AlertRuleRow)
    (hbad : cat.warehouses r.warehouseCode = none ∨
      cat.products r.productCode = none) :
    alertsGo cat st (pre ++ r :: post) = alertsGo cat st (pre ++ post) := by
  rw [alertsGo_append, alertsGo_append]
  have hmid : alertsGo cat st (r :: post) = alertsGo cat st post := by
    rcases hbad with h | h
    · simp [alertsGo, h]
    · cases hw : cat.warehouses r.warehouseCode <;> simp [alertsGo, hw, h]
  rw [hmid]

theorem claim_C9_witness :
    alertsGo cex9 initState ([] ++ ⟨"RAW_WH", "Z", 10⟩ :: []) =
      alertsGo cex9 initState ([] ++ []) :=
  claim_C9 cex9 initState [] [] ⟨"RAW_WH", "Z", 10⟩ (Or.inr rfl)

end Wms
